import Mathlib

/-!
Verification development for the `ubuffer` encrypted one-way transfer tool.

The repository implements a sender/receiver pair exchanging a framed,
AEAD-protected byte stream over a reliable transport.  This file gives a
shallow embedding of the protocol code from `src/proto/mod.rs`,
`src/proto/sender.rs`, `src/proto/receiver.rs`, `src/proto/util.rs` and
`src/main.rs`, and proves or refutes the specified properties over it.

Modelling conventions:
* bytes are naturals; every encoder produces values `< 256`;
* the reliable byte stream is a `List Nat`; a read consumes a prefix;
* Rust `Result` is `Except`; an `assert!`/`assert_eq!` failure is the
  distinguished outcome `Abort.panicked`, distinct from every returned
  `ProtoError`;
* the AEAD primitive (ring's AES-256-GCM, an external library) is modelled
  algebraically: sealing appends a 16-byte tag determined by key, nonce and
  plaintext; opening verifies the tag and strips it.  This matches the
  interface contract the code relies on (`seal_in_place` returns
  `plaintext_len + TAG_LEN`; `open_in_place` fails on tag mismatch).
-/

namespace UBuffer

/-- src/proto/mod.rs: `pub const BLOCK_SIZE: usize = 128 * 1024;` -/
def BLOCK_SIZE : Nat := 128 * 1024

/-- src/proto/mod.rs: `pub const MAGIC_BYTES: u32 = 0xDEADBEEF;` -/
def MAGIC_BYTES : Nat := 0xDEADBEEF

/-- src/proto/mod.rs: `pub const MESSAGE_SIZE: usize = 12;` (header size). -/
def MESSAGE_SIZE : Nat := 12

/-- `AES_256_GCM.tag_len()` in ring: 16 bytes. -/
def TAG_LEN : Nat := 16

/-- src/proto/mod.rs `enum MessageTy` (declaration order fixes the bincode
variant indices 0..4). -/
inductive MessageTy
  | Block
  | ReqIV
  | RepIV
  | Hello
  | Goodbye
deriving DecidableEq, Repr

/-- The serde variant index of a `MessageTy` value. -/
def MessageTy.discr : MessageTy → Nat
  | .Block => 0
  | .ReqIV => 1
  | .RepIV => 2
  | .Hello => 3
  | .Goodbye => 4

/-- Inverse of `MessageTy.discr`, as used by deserialization. -/
def discrToTy : Nat → Option MessageTy
  | 0 => some .Block
  | 1 => some .ReqIV
  | 2 => some .RepIV
  | 3 => some .Hello
  | 4 => some .Goodbye
  | _ => none

/-- src/proto/mod.rs `struct Message { ty: MessageTy, len: usize }`. -/
structure Message where
  ty : MessageTy
  len : Nat
deriving DecidableEq, Repr

/-- Little-endian 4-byte encoding of a 32-bit value (bincode fixint `u32`). -/
def u32le (n : Nat) : List Nat :=
  [n % 256, n / 256 % 256, n / 65536 % 256, n / 16777216 % 256]

/-- Little-endian 8-byte encoding of a 64-bit value (bincode fixint `u64`). -/
def u64le (n : Nat) : List Nat :=
  [n % 256, n / 256 % 256, n / 65536 % 256, n / 16777216 % 256,
   n / 4294967296 % 256, n / 1099511627776 % 256,
   n / 281474976710656 % 256, n / 72057594037927936 % 256]

/-- Big-endian 4-byte encoding, as written by
`cursor.write_u32::<NetworkEndian>(..)` (byteorder crate). -/
def u32be (n : Nat) : List Nat :=
  [n / 16777216 % 256, n / 65536 % 256, n / 256 % 256, n % 256]

/-- Big-endian 8-byte encoding, as written by
`cursor.write_u64::<NetworkEndian>(..)`. -/
def u64be (n : Nat) : List Nat :=
  [n / 72057594037927936 % 256, n / 281474976710656 % 256,
   n / 1099511627776 % 256, n / 4294967296 % 256,
   n / 16777216 % 256, n / 65536 % 256, n / 256 % 256, n % 256]

/-- Value of a little-endian digit list (base 256). -/
def leVal : List Nat → Nat
  | [] => 0
  | b :: rest => b + 256 * leVal rest

/-- `cursor.read_u32::<NetworkEndian>()`: big-endian read of the first four
bytes; errors (`None`) if fewer than four bytes are available. -/
def readU32be : List Nat → Option Nat
  | b0 :: b1 :: b2 :: b3 :: _ => some (((b0 * 256 + b1) * 256 + b2) * 256 + b3)
  | _ => none

/-- `bincode::serialize(&Message { ty, len })`.  The bincode 1.x crate-level
functions use the legacy configuration: fixed-width integers in
little-endian order, an enum as its `u32` variant index, `usize` as `u64`.
The encoding is therefore 4 bytes of variant index followed by 8 bytes of
`len`, 12 bytes in total (`MESSAGE_SIZE`). -/
def bincodeSerialize (m : Message) : List Nat :=
  u32le m.ty.discr ++ u64le m.len

/-- `bincode::deserialize::<Message>` on a 12-byte buffer: read a `u32`
variant index (failing on an index with no variant) then a `u64` length. -/
def bincodeDeserialize (b : List Nat) : Option Message :=
  match b with
  | [a0, a1, a2, a3, l0, l1, l2, l3, l4, l5, l6, l7] =>
    match discrToTy (leVal [a0, a1, a2, a3]) with
    | some ty => some ⟨ty, leVal [l0, l1, l2, l3, l4, l5, l6, l7]⟩
    | none => none
  | _ => none

/-- Tag of the algebraic AEAD model: 16 bytes determined by key, nonce and
plaintext. -/
def aeadTag (key nonce pt : List Nat) : List Nat :=
  List.replicate TAG_LEN ((key.sum + nonce.sum + pt.sum) % 256)

/-- `ring::aead::seal_in_place(key, nonce, b"", buf, tag_len)` on a buffer
holding `pt` followed by `TAG_LEN` spare bytes: ciphertext plus appended
tag; its length is `pt.length + TAG_LEN`, the value the call returns. -/
def seal_in_place (key nonce pt : List Nat) : List Nat :=
  pt ++ aeadTag key nonce pt

/-- `ring::aead::open_in_place(key, nonce, b"", 0, buf)`: verify the trailing
16-byte tag and return the plaintext prefix; `none` on mismatch. -/
def open_in_place (key nonce ct : List Nat) : Option (List Nat) :=
  if ct.length < TAG_LEN then none
  else
    let pt := ct.take (ct.length - TAG_LEN)
    if ct.drop (ct.length - TAG_LEN) = aeadTag key nonce pt then some pt
    else none

/-- src/proto/util.rs `get_next_nonce`: pre-increment the 64-bit counter
(wrapping), then emit `iv (4, big-endian) || counter (8, big-endian)`.
Returns the nonce bytes and the updated counter. -/
def get_next_nonce (nonce counter : Nat) : List Nat × Nat :=
  let counter' := (counter + 1) % 18446744073709551616
  (u32be nonce ++ u64be counter', counter')

/-- src/proto/sender.rs `Sender::get_next_nonce`: the sender's private copy
of the same derivation. -/
def Sender.get_next_nonce (nonce counter : Nat) : List Nat × Nat :=
  let counter' := (counter + 1) % 18446744073709551616
  (u32be nonce ++ u64be counter', counter')

/-- The nonce emitted by the (i+1)-th call to `get_next_nonce` when the
counter starts at `c` (so `nonceStream iv 0 0` is the first nonce of a
session). -/
def nonceStream (iv c : Nat) : Nat → List Nat
  | 0 => (get_next_nonce iv c).1
  | i + 1 => nonceStream iv (get_next_nonce iv c).2 i

/-- Counter value after `k` further `get_next_nonce` calls. -/
def ctrIter (c : Nat) : Nat → Nat
  | 0 => c
  | k + 1 => ctrIter ((c + 1) % 18446744073709551616) k

/-- src/proto/mod.rs `enum State`. -/
inductive State
  | WaitHangup
  | WaitHello
  | Transmit
deriving DecidableEq, Repr

/-- The mutable per-endpoint session fields shared by `Sender` and
`Receiver`: `counter: u64`, `nonce: u32` (the session IV) and `state`. -/
structure Peer where
  counter : Nat
  nonce : Nat
  state : State
deriving DecidableEq, Repr

/-- src/error.rs `enum ProtoError` (payloads dropped). -/
inductive ProtoError
  | CryptoErr
  | IoErr
  | SerializeErr
  | SocketErr
  | UnexpectedMessage
deriving DecidableEq, Repr

/-- How a protocol function aborts: by returning a `ProtoError`, or by a
Rust `assert!`/`assert_eq!` panic. -/
inductive Abort
  | err (e : ProtoError)
  | panicked
deriving DecidableEq, Repr

/-- `stream.read_exact(&mut buf)` with `buf.len() = n` over a reliable byte
stream whose remaining contents are `wire`: fills the buffer fully or fails
with an I/O error (modelled as `none`) when the stream ends first. -/
def readExact (wire : List Nat) (n : Nat) : Option (List Nat × List Nat) :=
  if n ≤ wire.length then some (wire.take n, wire.drop n) else none

/-- src/proto/sender.rs `Sender::req_iv`: serialize and send
`Message { ty: ReqIV, len: 0 }` (the serialized form is 12 bytes, so the
`assert_eq!(MESSAGE_SIZE, req_iv_buf.len())` always passes; proved below). -/
def Sender.req_iv : List Nat :=
  bincodeSerialize ⟨.ReqIV, 0⟩

/-- src/proto/sender.rs `Sender::recv_rep_iv`: read a 12-byte header,
deserialize it (no type check in the source!), read `len` payload bytes,
and parse the first four as the big-endian session IV, storing it in
`self.nonce`.  Returns the updated peer and the unread rest of the wire. -/
def Sender.recv_rep_iv (p : Peer) (rx : List Nat) :
    Except Abort (Peer × List Nat) :=
  match readExact rx MESSAGE_SIZE with
  | none => .error (.err .IoErr)
  | some (hdr, rx1) =>
    match bincodeDeserialize hdr with
    | none => .error (.err .SerializeErr)
    | some msg =>
      match readExact rx1 msg.len with
      | none => .error (.err .IoErr)
      | some (ivbuf, rx2) =>
        match readU32be ivbuf with
        | none => .error (.err .IoErr)
        | some iv => .ok ({ p with nonce := iv }, rx2)

/-- src/proto/sender.rs `Sender::send_hello`: write the magic bytes
big-endian, seal them in place with the next nonce, and send a
`Hello` header (with `len` the sealed size) followed by the ciphertext.
Returns the updated peer and the bytes written. -/
def Sender.send_hello (key : List Nat) (p : Peer) : Peer × List Nat :=
  let pt := u32be MAGIC_BYTES
  let r := Sender.get_next_nonce p.nonce p.counter
  let ct := seal_in_place key r.1 pt
  ({ p with counter := r.2 }, bincodeSerialize ⟨.Hello, ct.length⟩ ++ ct)

/-- src/proto/sender.rs `Sender::recv_hello`: read a 12-byte header; a type
other than `Hello` returns `ProtoError::UnexpectedMessage`; then advance the
nonce, read `len` payload bytes and AEAD-open them (failure returns
`ProtoError::CryptoErr` via `From<ring::error::Unspecified>`); the plaintext
is discarded. -/
def Sender.recv_hello (key : List Nat) (p : Peer) (rx : List Nat) :
    Except Abort (Peer × List Nat) :=
  match readExact rx MESSAGE_SIZE with
  | none => .error (.err .IoErr)
  | some (hdr, rx1) =>
    match bincodeDeserialize hdr with
    | none => .error (.err .SerializeErr)
    | some msg =>
      if msg.ty ≠ .Hello then .error (.err .UnexpectedMessage)
      else
        let r := Sender.get_next_nonce p.nonce p.counter
        match readExact rx1 msg.len with
        | none => .error (.err .IoErr)
        | some (ctbuf, rx2) =>
          match open_in_place key r.1 ctbuf with
          | none => .error (.err .CryptoErr)
          | some _ => .ok ({ p with counter := r.2 }, rx2)

/-- src/proto/sender.rs `Sender::send_client_goodbye`: send
`Message { ty: Goodbye, len: 0 }`. -/
def Sender.send_client_goodbye : List Nat :=
  bincodeSerialize ⟨.Goodbye, 0⟩

/-- src/proto/sender.rs `Sender::recv_server_goodbye`: read a 12-byte
header; a type other than `Goodbye` returns `UnexpectedMessage`; the `len`
field is ignored. -/
def Sender.recv_server_goodbye (rx : List Nat) : Except Abort (List Nat) :=
  match readExact rx MESSAGE_SIZE with
  | none => .error (.err .IoErr)
  | some (hdr, rx1) =>
    match bincodeDeserialize hdr with
    | none => .error (.err .SerializeErr)
    | some msg =>
      if msg.ty ≠ .Goodbye then .error (.err .UnexpectedMessage)
      else .ok rx1

/-- src/proto/sender.rs `Sender::wait_hello`: `req_iv`, `recv_rep_iv`,
`send_hello`, `recv_hello`, then `state = Transmit`.  Returns the updated
peer, the unread rest of the receiver-to-sender wire, and the bytes written
on the sender-to-receiver wire.  Bytes written before a failure are dropped:
every error aborts the whole session. -/
def Sender.wait_hello (key : List Nat) (p : Peer) (rx : List Nat) :
    Except Abort (Peer × List Nat × List Nat) :=
  match Sender.recv_rep_iv p rx with
  | .error e => .error e
  | .ok (p1, rx1) =>
    let r := Sender.send_hello key p1
    match Sender.recv_hello key r.1 rx1 with
    | .error e => .error e
    | .ok (p2, rx2) =>
      .ok ({ p2 with state := .Transmit }, rx2, Sender.req_iv ++ r.2)

/-- src/proto/sender.rs `Sender::transmit`: repeatedly fill the block buffer
from the input (`BufReader` with capacity `BLOCK_SIZE`; a full buffered
source yields `min BLOCK_SIZE remaining` bytes per `fill_buf`), stop at
end-of-input, otherwise seal the chunk with the next nonce and send a
`Block` header with `len = chunk.length + TAG_LEN` followed by the
ciphertext (the inner write loop sends all of it).  Finally
`state = WaitHangup`.  Returns the updated peer and the bytes written. -/
def Sender.transmit (key : List Nat) (p : Peer) (input : List Nat) :
    Peer × List Nat :=
  if h : input = [] then ({ p with state := .WaitHangup }, [])
  else
    let chunk := input.take BLOCK_SIZE
    let r := Sender.get_next_nonce p.nonce p.counter
    let ct := seal_in_place key r.1 chunk
    let rest := Sender.transmit key { p with counter := r.2 } (input.drop BLOCK_SIZE)
    (rest.1, bincodeSerialize ⟨.Block, ct.length⟩ ++ ct ++ rest.2)
termination_by input.length
decreasing_by
  cases input with
  | nil => exact absurd rfl h
  | cons a l => simp [BLOCK_SIZE]; omega

/-- src/proto/sender.rs `Sender::wait_hup`: send the client goodbye, then
wait for the server goodbye. -/
def Sender.wait_hup (rx : List Nat) : Except Abort (List Nat × List Nat) :=
  match Sender.recv_server_goodbye rx with
  | .error e => .error e
  | .ok rx1 => .ok (rx1, Sender.send_client_goodbye)

/-- src/proto/sender.rs `Sender::run`: drive the state machine to
completion.  Initial state is `counter = 0`, `nonce = 0`, `WaitHello`; the
loop visits `WaitHello`, `Transmit` and `WaitHangup` exactly once each (each
phase leaves the machine in the next state) and then returns `Ok`.
`rx` is the receiver-to-sender wire; the result is the full
sender-to-receiver wire. -/
def Sender.run (key input rx : List Nat) : Except Abort (List Nat) :=
  match Sender.wait_hello key ⟨0, 0, .WaitHello⟩ rx with
  | .error e => .error e
  | .ok (p1, rx1, tx1) =>
    let r := Sender.transmit key p1 input
    match Sender.wait_hup rx1 with
    | .error e => .error e
    | .ok (_, tx3) => .ok (tx1 ++ r.2 ++ tx3)

/-- src/proto/receiver.rs `Receiver::recv_req_iv`: read a 12-byte header and
deserialize it; `assert_eq!(message.ty, MessageTy::ReqIV)` and
`assert_eq!(message.len, 0)` panic on mismatch (no `ProtoError` is
returned there). -/
def Receiver.recv_req_iv (rx : List Nat) : Except Abort (List Nat) :=
  match readExact rx MESSAGE_SIZE with
  | none => .error (.err .IoErr)
  | some (hdr, rx1) =>
    match bincodeDeserialize hdr with
    | none => .error (.err .SerializeErr)
    | some msg =>
      if msg.ty ≠ .ReqIV then .error .panicked
      else if msg.len ≠ 0 then .error .panicked
      else .ok rx1

/-- src/proto/receiver.rs `Receiver::send_rep_iv`: draw a random 32-bit IV
(`rng.gen::<u32>()`, modelled by the parameter `iv`), store it in
`self.nonce`, and send `Message { ty: RepIV, len: 4 }` followed by the IV in
big-endian.  Returns the updated peer and the bytes written. -/
def Receiver.send_rep_iv (iv : Nat) (p : Peer) : Peer × List Nat :=
  let buf := u32be iv
  ({ p with nonce := iv }, bincodeSerialize ⟨.RepIV, buf.length⟩ ++ buf)

/-- src/proto/receiver.rs `Receiver::recv_client_hello`: read a 12-byte
header; `assert_eq!(hello_msg.ty, MessageTy::Hello)` panics on a wrong
type; read `len` payload bytes, advance the nonce
(`util::get_next_nonce`), and AEAD-open (failure returns `CryptoErr`);
the plaintext is only logged. -/
def Receiver.recv_client_hello (key : List Nat) (p : Peer) (rx : List Nat) :
    Except Abort (Peer × List Nat) :=
  match readExact rx MESSAGE_SIZE with
  | none => .error (.err .IoErr)
  | some (hdr, rx1) =>
    match bincodeDeserialize hdr with
    | none => .error (.err .SerializeErr)
    | some msg =>
      if msg.ty ≠ .Hello then .error .panicked
      else
        match readExact rx1 msg.len with
        | none => .error (.err .IoErr)
        | some (ctbuf, rx2) =>
          let r := get_next_nonce p.nonce p.counter
          match open_in_place key r.1 ctbuf with
          | none => .error (.err .CryptoErr)
          | some _ => .ok ({ p with counter := r.2 }, rx2)

/-- src/proto/receiver.rs `Receiver::send_server_hello`: seal the
big-endian magic bytes with the next nonce (`util::get_next_nonce`) and
send a `Hello` header followed by the ciphertext. -/
def Receiver.send_server_hello (key : List Nat) (p : Peer) : Peer × List Nat :=
  let pt := u32be MAGIC_BYTES
  let r := get_next_nonce p.nonce p.counter
  let ct := seal_in_place key r.1 pt
  ({ p with counter := r.2 }, bincodeSerialize ⟨.Hello, ct.length⟩ ++ ct)

/-- src/proto/receiver.rs `Receiver::send_server_goodbye`: send
`Message { ty: Goodbye, len: 0 }`. -/
def Receiver.send_server_goodbye : List Nat :=
  bincodeSerialize ⟨.Goodbye, 0⟩

/-- src/proto/receiver.rs `Receiver::wait_hello`: `recv_req_iv`,
`send_rep_iv`, `recv_client_hello`, `send_server_hello`, then
`state = Transmit`.  Returns the updated peer, the unread rest of the
sender-to-receiver wire, and the bytes written on the
receiver-to-sender wire. -/
def Receiver.wait_hello (key : List Nat) (iv : Nat) (p : Peer) (rx : List Nat) :
    Except Abort (Peer × List Nat × List Nat) :=
  match Receiver.recv_req_iv rx with
  | .error e => .error e
  | .ok rx1 =>
    let r1 := Receiver.send_rep_iv iv p
    match Receiver.recv_client_hello key r1.1 rx1 with
    | .error e => .error e
    | .ok (p2, rx2) =>
      let r2 := Receiver.send_server_hello key p2
      .ok ({ r2.1 with state := .Transmit }, rx2, r1.2 ++ r2.2)

/-- src/proto/receiver.rs `Receiver::wait_chunk` with a block buffer of
capacity `cap` (`Receiver::run` allocates `BLOCK_SIZE + TAG_LEN` bytes):
read and deserialize a 12-byte header; `Goodbye` switches the state to
`WaitHangup`; any other type than `Block` panics
(`assert_eq!(message.ty, MessageTy::Block)`); then the nonce is advanced
and `assert!(block_sz <= block_buf.len())` panics on an oversized length
BEFORE any payload byte is read; the read loop then copies `len` bytes
(fewer only if the stream ends first), AEAD-opens them in place (failure
returns `CryptoErr`), and writes the plaintext to the output sink.
Returns the updated peer, the unread rest of the wire, and the bytes
written to the sink. -/
def Receiver.wait_chunk (key : List Nat) (cap : Nat) (p : Peer)
    (rx : List Nat) : Except Abort (Peer × List Nat × List Nat) :=
  match readExact rx MESSAGE_SIZE with
  | none => .error (.err .IoErr)
  | some (hdr, rx1) =>
    match bincodeDeserialize hdr with
    | none => .error (.err .SerializeErr)
    | some msg =>
      if msg.ty = .Goodbye then .ok ({ p with state := .WaitHangup }, rx1, [])
      else if msg.ty ≠ .Block then .error .panicked
      else
        let r := get_next_nonce p.nonce p.counter
        if ¬ msg.len ≤ cap then .error .panicked
        else
          match open_in_place key r.1 (rx1.take msg.len) with
          | none => .error (.err .CryptoErr)
          | some payload =>
            .ok ({ p with counter := r.2 }, rx1.drop msg.len, payload)

/-- The `State::Transmit` arm of the `Receiver::run` loop: repeat
`wait_chunk` until it switches the state to `WaitHangup`, concatenating
the sink output.  Each successful `wait_chunk` consumes at least the
12-byte header, which bounds the iteration. -/
def Receiver.chunkLoop (key : List Nat) (cap : Nat) (p : Peer)
    (rx : List Nat) : Except Abort (Peer × List Nat × List Nat) :=
  match h : Receiver.wait_chunk key cap p rx with
  | .error e => .error e
  | .ok (p', rx', out) =>
    match p'.state with
    | .WaitHangup => .ok (p', rx', out)
    | _ =>
      match Receiver.chunkLoop key cap p' rx' with
      | .error e => .error e
      | .ok (p2, rx2, out2) => .ok (p2, rx2, out ++ out2)
termination_by rx.length
decreasing_by
  simp only [Receiver.wait_chunk, readExact] at h
  split at h
  · simp at h
  · rename_i ivbuf rx2 heq
    split at heq
    · rename_i hlen
      simp only [Option.some.injEq, Prod.mk.injEq] at heq
      obtain ⟨heq1, heq2⟩ := heq
      subst heq2
      split at h
      · simp at h
      · split at h
        · simp only [Except.ok.injEq, Prod.mk.injEq] at h
          rw [← h.2.1]
          simp only [List.length_drop, MESSAGE_SIZE] at hlen ⊢
          omega
        · split at h
          · simp at h
          · split at h
            · simp at h
            · split at h
              · simp at h
              · simp only [Except.ok.injEq, Prod.mk.injEq] at h
                rw [← h.2.1]
                simp only [List.length_drop, MESSAGE_SIZE] at hlen ⊢
                omega
    · simp at heq

/-- src/proto/receiver.rs `Receiver::run`: allocate the
`BLOCK_SIZE + TAG_LEN` block buffer and drive the state machine:
`WaitHello` once, then `Transmit` until a goodbye arrives, then
`WaitHangup` (send the server goodbye and close the socket).  Returns the
bytes written to the output sink and the full receiver-to-sender wire. -/
def Receiver.run (key : List Nat) (iv : Nat) (rx : List Nat) :
    Except Abort (List Nat × List Nat) :=
  match Receiver.wait_hello key iv ⟨0, 0, .WaitHello⟩ rx with
  | .error e => .error e
  | .ok (p1, rx1, tx1) =>
    match Receiver.chunkLoop key (BLOCK_SIZE + TAG_LEN) p1 rx1 with
    | .error e => .error e
    | .ok (_, _, out) => .ok (out, tx1 ++ Receiver.send_server_goodbye)

/-- The successive chunks `Sender::transmit` draws from its input: maximal
pieces of `BLOCK_SIZE` bytes, in input order. -/
def chunks (input : List Nat) : List (List Nat) :=
  if h : input = [] then []
  else input.take BLOCK_SIZE :: chunks (input.drop BLOCK_SIZE)
termination_by input.length
decreasing_by
  cases input with
  | nil => exact absurd rfl h
  | cons a l => simp [BLOCK_SIZE]; omega

/-- The wire frame of one plaintext block sealed at counter value `n`:
a `Block` header with `len = L + TAG_LEN` followed by the ciphertext. -/
def frameOfChunk (key : List Nat) (iv n : Nat) (ch : List Nat) : List Nat :=
  bincodeSerialize ⟨.Block, ch.length + TAG_LEN⟩
    ++ seal_in_place key (u32be iv ++ u64be n) ch

/-- The concatenated block frames for a chunk list, counters continuing
from `c` (each frame pre-increments, as `get_next_nonce` does). -/
def framesFrom (key : List Nat) (iv c : Nat) : List (List Nat) → List Nat
  | [] => []
  | ch :: rest =>
    frameOfChunk key iv ((c + 1) % 18446744073709551616) ch
      ++ framesFrom key iv ((c + 1) % 18446744073709551616) rest

/-- A `Hello` frame whose magic-bytes payload is sealed at counter value
`n`: header with `len = 4 + TAG_LEN = 20`, then the ciphertext. -/
def helloFrame (key : List Nat) (iv n : Nat) : List Nat :=
  let ct := seal_in_place key (u32be iv ++ u64be n) (u32be MAGIC_BYTES)
  bincodeSerialize ⟨.Hello, ct.length⟩ ++ ct

/-- The `Goodbye` frame (either direction). -/
def goodbyeFrame : List Nat :=
  bincodeSerialize ⟨.Goodbye, 0⟩

/-- Sender-to-receiver handshake bytes: `ReqIV`, then the sender `Hello`
sealed at counter 1. -/
def senderHandshake (key : List Nat) (iv : Nat) : List Nat :=
  bincodeSerialize ⟨.ReqIV, 0⟩ ++ helloFrame key iv 1

/-- Receiver-to-sender handshake bytes: `RepIV` carrying the big-endian IV,
then the receiver `Hello` sealed at counter 2. -/
def receiverHandshake (key : List Nat) (iv : Nat) : List Nat :=
  bincodeSerialize ⟨.RepIV, 4⟩ ++ u32be iv ++ helloFrame key iv 2

/-- The full sender-to-receiver wire of a successful session with session
IV `iv` and input `input`: handshake, block frames with counters continuing
at 2, goodbye. -/
def senderWire (key : List Nat) (iv : Nat) (input : List Nat) : List Nat :=
  senderHandshake key iv ++ framesFrom key iv 2 (chunks input) ++ goodbyeFrame

/-- The full receiver-to-sender wire of a successful session. -/
def receiverWire (key : List Nat) (iv : Nat) : List Nat :=
  receiverHandshake key iv ++ goodbyeFrame

/-- A single `Stream::write` call (src/proto/mod.rs `impl Write for
Stream`): one `UdtSocket::send`, which may accept fewer bytes than
offered.  `caps` lists the byte counts the transport accepts on successive
calls; once exhausted, calls accept everything.  Returns the bytes that
actually went on the wire, the count the call reports, and the rest of
`caps`. -/
def sendOnce (caps : List Nat) (buf : List Nat) : List Nat × Nat × List Nat :=
  match caps with
  | [] => (buf, buf.length, [])
  | c :: rest => (buf.take c, min c buf.length, rest)

/-- src/proto/sender.rs `Sender::send_hello` viewed over the capacity
stream: the header and the ciphertext are each sent with a SINGLE
`stream.write(..)` whose short-write result is discarded (only an `Err` is
propagated).  Returns the bytes on the wire and the remaining caps. -/
def sendHelloW (key : List Nat) (iv c : Nat) (caps : List Nat) :
    List Nat × List Nat :=
  let ct := seal_in_place key (u32be iv ++ u64be ((c + 1) % 18446744073709551616))
      (u32be MAGIC_BYTES)
  let hdr := bincodeSerialize ⟨.Hello, ct.length⟩
  let r1 := sendOnce caps hdr
  let r2 := sendOnce r1.2.2 ct
  (r1.1 ++ r2.1, r2.2.2)

/-- The `'write` loop of src/proto/sender.rs `Sender::transmit` (lines
125-132) over the capacity stream: write `buf[pos..]`, advance `pos` by the
reported count, stop once `pos >= buf.length`.  Returns the bytes written
and the remaining caps. -/
def writeLoopW (caps : List Nat) (buf : List Nat) (pos : Nat) :
    List Nat × List Nat :=
  match caps with
  | [] => (buf.drop pos, [])
  | c :: rest =>
    let sent := min c (buf.length - pos)
    let w := (buf.drop pos).take c
    if buf.length ≤ pos + sent then (w, rest)
    else
      let r := writeLoopW rest buf (pos + sent)
      (w ++ r.1, r.2)

/-- src/proto/sender.rs `Sender::req_iv` over the capacity stream: the
`ReqIV` header is sent with a single `stream.write` call. -/
def reqIvW (caps : List Nat) : List Nat × List Nat :=
  let r := sendOnce caps (bincodeSerialize ⟨.ReqIV, 0⟩)
  (r.1, r.2.2)

/-- The goodbye writes (src/proto/sender.rs `Sender::send_client_goodbye`
and src/proto/receiver.rs `Receiver::send_server_goodbye`) over the
capacity stream: one single `stream.write` call of the `Goodbye` header. -/
def goodbyeW (caps : List Nat) : List Nat × List Nat :=
  let r := sendOnce caps (bincodeSerialize ⟨.Goodbye, 0⟩)
  (r.1, r.2.2)

/-- src/proto/receiver.rs `Receiver::send_rep_iv` over the capacity stream:
the `RepIV` header and then the 4-byte big-endian IV payload are each sent
with a single `stream.write` call. -/
def sendRepIvW (iv : Nat) (caps : List Nat) : List Nat × List Nat :=
  let buf := u32be iv
  let r1 := sendOnce caps (bincodeSerialize ⟨.RepIV, buf.length⟩)
  let r2 := sendOnce r1.2.2 buf
  (r1.1 ++ r2.1, r2.2.2)

/-- src/proto/receiver.rs `Receiver::send_server_hello` over the capacity
stream: header and sealed payload are each one single `stream.write` call
(the nonce comes from `util::get_next_nonce`, same bytes as the sender's). -/
def sendServerHelloW (key : List Nat) (iv c : Nat) (caps : List Nat) :
    List Nat × List Nat :=
  let ct := seal_in_place key (u32be iv ++ u64be ((c + 1) % 18446744073709551616))
      (u32be MAGIC_BYTES)
  let hdr := bincodeSerialize ⟨.Hello, ct.length⟩
  let r1 := sendOnce caps hdr
  let r2 := sendOnce r1.2.2 ct
  (r1.1 ++ r2.1, r2.2.2)

/-- One send of a sealed block in src/proto/sender.rs `Sender::transmit`
over the capacity stream: the `Block` header goes out in a single
`stream.write` call whose count is discarded (line 123), then the `'write`
loop sends the ciphertext. -/
def sendBlockW (key : List Nat) (iv c : Nat) (chunk : List Nat)
    (caps : List Nat) : List Nat × List Nat :=
  let ct := seal_in_place key (u32be iv ++ u64be ((c + 1) % 18446744073709551616))
      chunk
  let r1 := sendOnce caps (bincodeSerialize ⟨.Block, ct.length⟩)
  let r2 := writeLoopW r1.2.2 ct 0
  (r1.1 ++ r2.1, r2.2)

/-- What `main` in src/main.rs dispatches to: the clap `App` defines two
optional flags, `--send <SEND_ADDR>` and `--recv <RECV_ADDR>`; with
`--send` present it runs `start_sender`, else with `--recv` it runs
`start_receiver`, else it falls through and returns `Ok(())`. -/
inductive MainAction
  | plainSend (addr : String)
  | plainRecv (addr : String)
  | nothing
deriving DecidableEq, Repr

/-- The dispatch logic of `main` (src/main.rs lines 40-52), as a function
of the parsed option values. -/
def mainDispatch (send_addr recv_addr : Option String) : MainAction :=
  match send_addr with
  | some a => .plainSend a
  | none =>
    match recv_addr with
    | some a => .plainRecv a
    | none => .nothing

/-- The names of the `Arg::with_name(..)` arguments registered on the clap
`App` in src/main.rs (lines 23-38).  There is no `key` argument. -/
def cliArgNames : List String := ["recv_addr", "send_addr"]

/-- The subcommands registered on the clap `App` in src/main.rs: none
(`App::new(..)` with only `.version`, `.about` and two `.arg` calls). -/
def cliSubcommandNames : List String := []

/-- src/main.rs `start_sender` (lines 55-103): copy standard input to the
socket in chunks of at most `BLOCK_SIZE` bytes, unencrypted and unframed;
returns the bytes sent. -/
def start_sender_wire (stdin : List Nat) : List Nat :=
  if h : stdin = [] then []
  else stdin.take BLOCK_SIZE ++ start_sender_wire (stdin.drop BLOCK_SIZE)
termination_by stdin.length
decreasing_by
  cases stdin with
  | nil => exact absurd rfl h
  | cons a l => simp [BLOCK_SIZE]; omega

/-- src/main.rs `start_receiver` (lines 105-152): copy the socket to
standard output in reads of at most `BLOCK_SIZE` bytes, unencrypted;
returns the bytes written to standard output. -/
def start_receiver_out (wire : List Nat) : List Nat :=
  if h : wire = [] then []
  else wire.take BLOCK_SIZE ++ start_receiver_out (wire.drop BLOCK_SIZE)
termination_by wire.length
decreasing_by
  cases wire with
  | nil => exact absurd rfl h
  | cons a l => simp [BLOCK_SIZE]; omega

/-- The header encoding the specification describes: all multi-byte
integers big-endian, so a big-endian `u32` type discriminant followed by a
big-endian `u64` length.  Modelled from the spec for comparison with the
source's `bincodeSerialize`. -/
def specHeaderBE (m : Message) : List Nat :=
  u32be m.ty.discr ++ u64be m.len

/-! ### Codec lemmas -/

@[simp] theorem length_u32le (n : Nat) : (u32le n).length = 4 := rfl

@[simp] theorem length_u64le (n : Nat) : (u64le n).length = 8 := rfl

@[simp] theorem length_u32be (n : Nat) : (u32be n).length = 4 := rfl

@[simp] theorem length_u64be (n : Nat) : (u64be n).length = 8 := rfl

@[simp] theorem length_bincodeSerialize (m : Message) :
    (bincodeSerialize m).length = MESSAGE_SIZE := by
  simp [bincodeSerialize, MESSAGE_SIZE, u32le, u64le]

@[simp] theorem length_seal (key nonce pt : List Nat) :
    (seal_in_place key nonce pt).length = pt.length + TAG_LEN := by
  simp [seal_in_place, aeadTag]

theorem discrToTy_discr (ty : MessageTy) : discrToTy ty.discr = some ty := by
  cases ty <;> rfl

theorem leVal_u64le (n : Nat) :
    leVal (u64le n) = n % 18446744073709551616 := by
  simp only [u64le, leVal]
  omega

theorem leVal_u32le (n : Nat) : leVal (u32le n) = n % 4294967296 := by
  simp only [u32le, leVal]
  omega

/-- Deserializing a serialized header recovers the message, for any `len`
representable as `u64` (every Rust `usize` is). -/
theorem bincode_roundtrip (m : Message) (h : m.len < 18446744073709551616) :
    bincodeDeserialize (bincodeSerialize m) = some m := by
  obtain ⟨ty, len⟩ := m
  have hd : leVal [ty.discr % 256, ty.discr / 256 % 256, ty.discr / 65536 % 256,
      ty.discr / 16777216 % 256] = ty.discr := by
    cases ty <;> rfl
  simp only [bincodeSerialize, u32le, u64le, List.cons_append, List.nil_append,
    bincodeDeserialize, hd, discrToTy_discr]
  have hl := leVal_u64le len
  simp only [u64le] at hl
  rw [hl, Nat.mod_eq_of_lt h]

theorem readU32be_u32be (n : Nat) (rest : List Nat) :
    readU32be (u32be n ++ rest) = some (n % 4294967296) := by
  simp only [u32be, List.cons_append, readU32be]
  congr 1
  omega

/-- Opening a sealed buffer with the same key and nonce returns the
plaintext. -/
@[simp] theorem length_aeadTag (key nonce pt : List Nat) :
    (aeadTag key nonce pt).length = TAG_LEN := by
  simp [aeadTag]

theorem open_seal (key nonce pt : List Nat) :
    open_in_place key nonce (seal_in_place key nonce pt) = some pt := by
  simp only [open_in_place, seal_in_place, List.length_append, length_aeadTag,
    Nat.add_sub_cancel]
  rw [if_neg (Nat.not_lt.mpr (Nat.le_add_left _ _)), List.take_left,
    List.drop_left, if_pos rfl]

theorem readExact_append (a b : List Nat) (n : Nat) (h : a.length = n) :
    readExact (a ++ b) n = some (a, b) := by
  subst h
  simp [readExact, List.take_left, List.drop_left]

/-! ### Chunking lemmas -/

theorem chunks_nil : chunks [] = [] := by
  rw [chunks]
  simp

theorem chunks_flatten (l : List Nat) : (chunks l).flatten = l := by
  by_cases h : l = []
  · subst h
    rw [chunks]
    simp
  · have ih := chunks_flatten (l.drop BLOCK_SIZE)
    rw [chunks, dif_neg h]
    simp [ih]
termination_by l.length
decreasing_by
  cases l with
  | nil => exact absurd rfl h
  | cons a t => simp [BLOCK_SIZE]; omega

theorem chunks_sizes (l : List Nat) :
    ∀ ch ∈ chunks l, ch ≠ [] ∧ ch.length ≤ BLOCK_SIZE := by
  intro ch hm
  by_cases h : l = []
  · subst h
    rw [chunks] at hm
    simp at hm
  · rw [chunks, dif_neg h] at hm
    rcases List.mem_cons.mp hm with h1 | h2
    · subst h1
      have hl : 0 < l.length := List.length_pos.mpr h
      refine ⟨fun hc => ?_, ?_⟩
      · have hlen : (l.take BLOCK_SIZE).length = 0 := by rw [hc]; rfl
        rw [List.length_take] at hlen
        have hB : BLOCK_SIZE = 131072 := rfl
        rw [hB] at hlen
        omega
      · rw [List.length_take]
        exact min_le_left _ _
    · exact chunks_sizes (l.drop BLOCK_SIZE) ch h2
termination_by l.length
decreasing_by
  cases l with
  | nil => exact absurd rfl h
  | cons a t => simp [BLOCK_SIZE]; omega

theorem chunks_replicate_succ (a : Nat) :
    chunks (List.replicate (BLOCK_SIZE + 1) a)
      = [List.replicate BLOCK_SIZE a, [a]] := by
  have hne : List.replicate (BLOCK_SIZE + 1) a ≠ [] := by
    apply List.ne_nil_of_length_pos
    rw [List.length_replicate]
    omega
  rw [chunks, dif_neg hne]
  rw [List.take_replicate, List.drop_replicate]
  have h1 : min BLOCK_SIZE (BLOCK_SIZE + 1) = BLOCK_SIZE := by omega
  have h2 : BLOCK_SIZE + 1 - BLOCK_SIZE = 1 := by omega
  rw [h1, h2, List.replicate_one]
  have hone : (1:Nat) ≤ BLOCK_SIZE := by
    have : BLOCK_SIZE = 131072 := rfl
    omega
  rw [chunks, dif_neg (by simp)]
  rw [List.take_of_length_le (by simpa using hone),
    List.drop_eq_nil_of_le (by simpa using hone), chunks_nil]

/-- The bytes `Sender::transmit` writes are exactly the block frames of the
input's chunks, with counters continuing from the sender's current one. -/
theorem transmit_wire (key : List Nat) (p : Peer) (input : List Nat) :
    (Sender.transmit key p input).2
      = framesFrom key p.nonce p.counter (chunks input) := by
  by_cases h : input = []
  · subst h
    rw [Sender.transmit, chunks]
    simp [framesFrom]
  · have ih := transmit_wire key
      { p with counter := (p.counter + 1) % 18446744073709551616 }
      (input.drop BLOCK_SIZE)
    rw [Sender.transmit, chunks, dif_neg h, dif_neg h]
    simp only [Sender.get_next_nonce] at ih ⊢
    simp only [framesFrom, frameOfChunk]
    simp [ih, length_seal]
termination_by input.length
decreasing_by
  cases input with
  | nil => exact absurd rfl h
  | cons a t => simp [BLOCK_SIZE]; omega

/-! ### Step lemmas for the receiver in `Transmit` -/

theorem wait_chunk_goodbye (key : List Nat) (cap : Nat) (p : Peer)
    (rest : List Nat) :
    Receiver.wait_chunk key cap p (goodbyeFrame ++ rest)
      = .ok ({ p with state := .WaitHangup }, rest, []) := by
  unfold Receiver.wait_chunk goodbyeFrame
  rw [readExact_append _ _ _ (length_bincodeSerialize _)]
  simp [bincode_roundtrip ⟨MessageTy.Goodbye, 0⟩ (by norm_num)]

theorem wait_chunk_block (key : List Nat) (iv c cap : Nat) (ch rest : List Nat)
    (hlen : ch.length + TAG_LEN ≤ cap)
    (hrep : ch.length + TAG_LEN < 18446744073709551616) :
    Receiver.wait_chunk key cap ⟨c, iv, .Transmit⟩
        (frameOfChunk key iv ((c + 1) % 18446744073709551616) ch ++ rest)
      = .ok (⟨(c + 1) % 18446744073709551616, iv, .Transmit⟩, rest, ch) := by
  unfold Receiver.wait_chunk frameOfChunk
  rw [List.append_assoc, readExact_append _ _ _ (length_bincodeSerialize _)]
  simp only [bincode_roundtrip ⟨MessageTy.Block, ch.length + TAG_LEN⟩ hrep,
    get_next_nonce]
  simp [hlen,
    List.take_left'
      (length_seal key (u32be iv ++ u64be ((c + 1) % 18446744073709551616)) ch),
    List.drop_left'
      (length_seal key (u32be iv ++ u64be ((c + 1) % 18446744073709551616)) ch),
    open_seal]

theorem chunkLoop_frames (key : List Nat) (iv : Nat) (chs : List (List Nat))
    (hch : ∀ ch ∈ chs, ch.length ≤ BLOCK_SIZE) (c : Nat) (rest : List Nat) :
    Receiver.chunkLoop key (BLOCK_SIZE + TAG_LEN) ⟨c, iv, .Transmit⟩
        (framesFrom key iv c chs ++ goodbyeFrame ++ rest)
      = .ok (⟨ctrIter c chs.length, iv, .WaitHangup⟩, rest, chs.flatten) := by
  induction chs generalizing c with
  | nil =>
    simp only [framesFrom, List.nil_append, List.length_nil, ctrIter,
      List.flatten_nil]
    rw [Receiver.chunkLoop]
    split
    · rename_i e heq
      rw [wait_chunk_goodbye] at heq
      cases heq
    · rename_i p' rx' out heq
      rw [wait_chunk_goodbye] at heq
      simp only [Except.ok.injEq, Prod.mk.injEq] at heq
      obtain ⟨hp, hr, ho⟩ := heq
      subst hp
      subst hr
      subst ho
      rfl
  | cons ch chs ih =>
    have hhead : ch.length ≤ BLOCK_SIZE := hch ch (by simp)
    have htail : ∀ x ∈ chs, x.length ≤ BLOCK_SIZE := fun x hx => hch x (by simp [hx])
    have hB : BLOCK_SIZE = 131072 := rfl
    have hT : TAG_LEN = 16 := rfl
    simp only [framesFrom, List.append_assoc]
    rw [Receiver.chunkLoop]
    split
    · rename_i e heq
      rw [← List.append_assoc (framesFrom _ _ _ _), wait_chunk_block key iv c _ ch _
        (by omega) (by omega)] at heq
      cases heq
    · rename_i p' rx' out heq
      rw [← List.append_assoc (framesFrom _ _ _ _), wait_chunk_block key iv c _ ch _
        (by omega) (by omega)] at heq
      simp only [Except.ok.injEq, Prod.mk.injEq] at heq
      obtain ⟨hp, hr, ho⟩ := heq
      subst hp
      subst hr
      subst ho
      simp only [List.length_cons, List.flatten_cons, ctrIter]
      rw [ih htail ((c + 1) % 18446744073709551616)]

/-! ### Step lemmas for the handshake -/

theorem readU32be_u32be_nil (n : Nat) :
    readU32be (u32be n) = some (n % 4294967296) := by
  have h := readU32be_u32be n []
  rwa [List.append_nil] at h

theorem recv_rep_iv_frames (p : Peer) (iv : Nat) (tail : List Nat) :
    Sender.recv_rep_iv p (bincodeSerialize ⟨.RepIV, 4⟩ ++ u32be iv ++ tail)
      = .ok ({ p with nonce := iv % 4294967296 }, tail) := by
  unfold Sender.recv_rep_iv
  rw [List.append_assoc, readExact_append _ _ _ (length_bincodeSerialize _)]
  simp only [bincode_roundtrip ⟨MessageTy.RepIV, 4⟩ (by norm_num)]
  rw [readExact_append _ _ _ (length_u32be iv)]
  simp [readU32be_u32be_nil]

theorem seal_magic_length (key nonce : List Nat) :
    (seal_in_place key nonce (u32be MAGIC_BYTES)).length = 20 := by
  rw [length_seal]
  rfl

/-- The `Hello` frame with the `len` field evaluated (4 magic bytes plus the
16-byte tag). -/
theorem helloFrame_eq (key : List Nat) (iv n : Nat) :
    helloFrame key iv n
      = bincodeSerialize ⟨.Hello, 20⟩
        ++ seal_in_place key (u32be iv ++ u64be n) (u32be MAGIC_BYTES) := by
  simp only [helloFrame]
  rw [seal_magic_length]

theorem recv_hello_frames (key : List Nat) (p : Peer) (tail : List Nat) :
    Sender.recv_hello key p
        (helloFrame key p.nonce ((p.counter + 1) % 18446744073709551616) ++ tail)
      = .ok ({ p with counter := (p.counter + 1) % 18446744073709551616 }, tail) := by
  unfold Sender.recv_hello Sender.get_next_nonce
  rw [helloFrame_eq, List.append_assoc,
    readExact_append _ _ _ (length_bincodeSerialize _)]
  simp only [bincode_roundtrip ⟨MessageTy.Hello, 20⟩ (by norm_num)]
  rw [readExact_append _ _ _ (seal_magic_length key _)]
  simp [open_seal]

theorem recv_req_iv_frames (tail : List Nat) :
    Receiver.recv_req_iv (bincodeSerialize ⟨.ReqIV, 0⟩ ++ tail) = .ok tail := by
  unfold Receiver.recv_req_iv
  rw [readExact_append _ _ _ (length_bincodeSerialize _)]
  simp [bincode_roundtrip ⟨MessageTy.ReqIV, 0⟩ (by norm_num)]

theorem recv_client_hello_frames (key : List Nat) (p : Peer) (tail : List Nat) :
    Receiver.recv_client_hello key p
        (helloFrame key p.nonce ((p.counter + 1) % 18446744073709551616) ++ tail)
      = .ok ({ p with counter := (p.counter + 1) % 18446744073709551616 }, tail) := by
  unfold Receiver.recv_client_hello get_next_nonce
  rw [helloFrame_eq, List.append_assoc,
    readExact_append _ _ _ (length_bincodeSerialize _)]
  simp only [bincode_roundtrip ⟨MessageTy.Hello, 20⟩ (by norm_num)]
  rw [readExact_append _ _ _ (seal_magic_length key _)]
  simp [open_seal]

theorem recv_server_goodbye_frames (tail : List Nat) :
    Sender.recv_server_goodbye (goodbyeFrame ++ tail) = .ok tail := by
  unfold Sender.recv_server_goodbye goodbyeFrame
  rw [readExact_append _ _ _ (length_bincodeSerialize _)]
  simp [bincode_roundtrip ⟨MessageTy.Goodbye, 0⟩ (by norm_num)]

/-- A successful sender handshake against the canonical receiver wire:
state becomes `Transmit`, the counter 2, the stored IV the receiver's, and
the bytes written are the canonical sender handshake. -/
theorem sender_wait_hello_frames (key : List Nat) (iv : Nat)
    (hiv : iv < 4294967296) (rest : List Nat) :
    Sender.wait_hello key ⟨0, 0, .WaitHello⟩ (receiverHandshake key iv ++ rest)
      = .ok (⟨2, iv, .Transmit⟩, rest, senderHandshake key iv) := by
  have hM1 : ((0:Nat) + 1) % 18446744073709551616 = 1 := by norm_num
  have hM2 : ((1:Nat) + 1) % 18446744073709551616 = 2 := by norm_num
  unfold Sender.wait_hello receiverHandshake
  rw [List.append_assoc (bincodeSerialize _ ++ u32be iv),
    recv_rep_iv_frames ⟨0, 0, .WaitHello⟩ iv (helloFrame key iv 2 ++ rest)]
  simp only [Sender.send_hello, Sender.get_next_nonce, Nat.mod_eq_of_lt hiv]
  have hrecv := recv_hello_frames key ⟨(0 + 1) % 18446744073709551616, iv, .WaitHello⟩ rest
  rw [hM1] at hrecv
  simp only at hrecv
  rw [hM2] at hrecv
  rw [hrecv]
  simp [senderHandshake, helloFrame, Sender.req_iv, hM1, hM2]

/-- A successful receiver handshake against the canonical sender wire. -/
theorem receiver_wait_hello_frames (key : List Nat) (iv : Nat) (rest : List Nat) :
    Receiver.wait_hello key iv ⟨0, 0, .WaitHello⟩ (senderHandshake key iv ++ rest)
      = .ok (⟨2, iv, .Transmit⟩, rest, receiverHandshake key iv) := by
  have hM1 : ((0:Nat) + 1) % 18446744073709551616 = 1 := by norm_num
  have hM2 : ((1:Nat) + 1) % 18446744073709551616 = 2 := by norm_num
  unfold Receiver.wait_hello senderHandshake
  rw [List.append_assoc (bincodeSerialize _),
    recv_req_iv_frames (helloFrame key iv 1 ++ rest)]
  simp only [Receiver.send_rep_iv]
  have hrecv := recv_client_hello_frames key ⟨0, iv, .WaitHello⟩ rest
  simp only at hrecv
  rw [hM1] at hrecv
  rw [hrecv]
  simp only [Receiver.send_server_hello, get_next_nonce]
  simp [receiverHandshake, helloFrame, hM1, hM2]

/-! ### Whole-session lemmas -/

/-- The sender's state machine, run against the canonical receiver wire,
completes and writes exactly the canonical sender wire. -/
theorem sender_run_wire (key : List Nat) (iv : Nat) (hiv : iv < 4294967296)
    (input : List Nat) :
    Sender.run key input (receiverWire key iv) = .ok (senderWire key iv input) := by
  unfold Sender.run receiverWire
  rw [sender_wait_hello_frames key iv hiv goodbyeFrame]
  have hgb := recv_server_goodbye_frames []
  rw [List.append_nil] at hgb
  simp only [Sender.wait_hup, hgb]
  have htr := transmit_wire key ⟨2, iv, .Transmit⟩ input
  simp only at htr
  simp [senderWire, htr, Sender.send_client_goodbye, goodbyeFrame]

/-- The receiver's state machine, run against the canonical sender wire,
completes, writes exactly the input bytes to its sink, and writes the
canonical receiver wire back. -/
theorem receiver_run_out (key : List Nat) (iv : Nat) (input : List Nat) :
    Receiver.run key iv (senderWire key iv input)
      = .ok (input, receiverWire key iv) := by
  unfold Receiver.run senderWire
  rw [List.append_assoc,
    receiver_wait_hello_frames key iv (framesFrom key iv 2 (chunks input) ++ goodbyeFrame)]
  have hcl := chunkLoop_frames key iv (chunks input)
    (fun ch h => (chunks_sizes input ch h).2) 2 []
  rw [List.append_nil] at hcl
  simp only [hcl, chunks_flatten]
  rfl

/-! ### Partial-write lemmas -/

/-- The `'write` loop of `Sender::transmit` puts every remaining byte of the
buffer on the wire, whatever partial counts the transport reports. -/
theorem writeLoopW_drop (caps buf : List Nat) (pos : Nat) :
    (writeLoopW caps buf pos).1 = buf.drop pos := by
  induction caps generalizing pos with
  | nil => rfl
  | cons c rest ih =>
    simp only [writeLoopW]
    by_cases h : buf.length ≤ pos + min c (buf.length - pos)
    · rw [if_pos h]
      have hl : (buf.drop pos).length ≤ c := by
        rw [List.length_drop]
        omega
      exact List.take_of_length_le hl
    · rw [if_neg h]
      have hc : min c (buf.length - pos) = c := by omega
      simp only [hc, ih]
      exact List.drop_take_append_drop buf pos c

/-! ### Nonce-sequence lemmas -/

theorem nonceStream_eq (iv c i : Nat)
    (h : c + i + 1 < 18446744073709551616) :
    nonceStream iv c i = u32be iv ++ u64be (c + i + 1) := by
  induction i generalizing c with
  | zero =>
    simp [nonceStream, get_next_nonce, Nat.mod_eq_of_lt (by omega : c + 1 < 18446744073709551616)]
  | succ i ih =>
    simp only [nonceStream, get_next_nonce]
    rw [Nat.mod_eq_of_lt (by omega : c + 1 < 18446744073709551616)]
    rw [ih (c + 1) (by omega)]
    have he : c + 1 + i + 1 = c + (i + 1) + 1 := by omega
    rw [he]

/-! ### Counter tracking through the handshake -/

theorem recv_rep_iv_fields (p : Peer) (rx : List Nat) (q : Peer)
    (rx2 : List Nat) (h : Sender.recv_rep_iv p rx = .ok (q, rx2)) :
    q.counter = p.counter ∧ q.state = p.state := by
  unfold Sender.recv_rep_iv at h
  split at h
  · cases h
  · split at h
    · cases h
    · split at h
      · cases h
      · split at h
        · cases h
        · simp only [Except.ok.injEq, Prod.mk.injEq] at h
          obtain ⟨hq, _⟩ := h
          rw [← hq]
          exact ⟨rfl, rfl⟩

theorem recv_hello_fields (key : List Nat) (p : Peer) (rx : List Nat)
    (q : Peer) (rx2 : List Nat)
    (h : Sender.recv_hello key p rx = .ok (q, rx2)) :
    q.counter = (p.counter + 1) % 18446744073709551616 ∧ q.state = p.state := by
  unfold Sender.recv_hello Sender.get_next_nonce at h
  split at h
  · cases h
  · split at h
    · cases h
    · split at h
      · cases h
      · split at h
        · cases h
        · dsimp only at h
          split at h
          · cases h
          · simp only [Except.ok.injEq, Prod.mk.injEq] at h
            obtain ⟨hq, _⟩ := h
            rw [← hq]
            exact ⟨rfl, rfl⟩

theorem recv_client_hello_fields (key : List Nat) (p : Peer) (rx : List Nat)
    (q : Peer) (rx2 : List Nat)
    (h : Receiver.recv_client_hello key p rx = .ok (q, rx2)) :
    q.counter = (p.counter + 1) % 18446744073709551616 ∧ q.state = p.state := by
  unfold Receiver.recv_client_hello get_next_nonce at h
  split at h
  · cases h
  · split at h
    · cases h
    · split at h
      · cases h
      · split at h
        · cases h
        · dsimp only at h
          split at h
          · cases h
          · simp only [Except.ok.injEq, Prod.mk.injEq] at h
            obtain ⟨hq, _⟩ := h
            rw [← hq]
            exact ⟨rfl, rfl⟩

/-- Any successful sender handshake from the fresh state ends in `Transmit`
with counter exactly 2 (one seal, then one open). -/
theorem sender_wait_hello_ok (key rx : List Nat) (p' : Peer)
    (rx' tx : List Nat)
    (h : Sender.wait_hello key ⟨0, 0, .WaitHello⟩ rx = .ok (p', rx', tx)) :
    p'.state = .Transmit ∧ p'.counter = 2 := by
  unfold Sender.wait_hello at h
  split at h
  · cases h
  · rename_i p1 rx1 heq1
    dsimp only at h
    split at h
    · cases h
    · rename_i p2 rx2 heq2
      simp only [Except.ok.injEq, Prod.mk.injEq] at h
      obtain ⟨hp, _, _⟩ := h
      have h1 := recv_rep_iv_fields _ _ _ _ heq1
      have h2 := recv_hello_fields _ _ _ _ _ heq2
      simp only [Sender.send_hello, Sender.get_next_nonce] at h2
      rw [← hp]
      simp [h2.1, h1.1]

/-- Any successful receiver handshake from the fresh state ends in
`Transmit` with counter exactly 2 (one open, then one seal). -/
theorem receiver_wait_hello_ok (key : List Nat) (iv : Nat) (rx : List Nat)
    (p' : Peer) (rx' tx : List Nat)
    (h : Receiver.wait_hello key iv ⟨0, 0, .WaitHello⟩ rx = .ok (p', rx', tx)) :
    p'.state = .Transmit ∧ p'.counter = 2 := by
  unfold Receiver.wait_hello at h
  split at h
  · cases h
  · rename_i rx1 heq1
    dsimp only at h
    split at h
    · cases h
    · rename_i p2 rx2 heq2
      simp only [Except.ok.injEq, Prod.mk.injEq] at h
      obtain ⟨hp, _, _⟩ := h
      have h2 := recv_client_hello_fields _ _ _ _ _ heq2
      simp only [Receiver.send_rep_iv] at h2
      rw [← hp]
      simp [Receiver.send_server_hello, get_next_nonce, h2.1]

/-! ### Error-path lemmas -/

theorem recv_hello_wrong_type (key : List Nat) (p : Peer) (m : Message)
    (tail : List Nat) (hty : m.ty ≠ .Hello)
    (hlen : m.len < 18446744073709551616) :
    Sender.recv_hello key p (bincodeSerialize m ++ tail)
      = .error (.err .UnexpectedMessage) := by
  unfold Sender.recv_hello
  rw [readExact_append _ _ _ (length_bincodeSerialize _)]
  simp [bincode_roundtrip m hlen, hty]

theorem recv_server_goodbye_wrong_type (m : Message) (tail : List Nat)
    (hty : m.ty ≠ .Goodbye) (hlen : m.len < 18446744073709551616) :
    Sender.recv_server_goodbye (bincodeSerialize m ++ tail)
      = .error (.err .UnexpectedMessage) := by
  unfold Sender.recv_server_goodbye
  rw [readExact_append _ _ _ (length_bincodeSerialize _)]
  simp [bincode_roundtrip m hlen, hty]

theorem recv_req_iv_wrong_type (m : Message) (tail : List Nat)
    (hty : m.ty ≠ .ReqIV) (hlen : m.len < 18446744073709551616) :
    Receiver.recv_req_iv (bincodeSerialize m ++ tail) = .error .panicked := by
  unfold Receiver.recv_req_iv
  rw [readExact_append _ _ _ (length_bincodeSerialize _)]
  simp [bincode_roundtrip m hlen, hty]

theorem recv_client_hello_wrong_type (key : List Nat) (p : Peer) (m : Message)
    (tail : List Nat) (hty : m.ty ≠ .Hello)
    (hlen : m.len < 18446744073709551616) :
    Receiver.recv_client_hello key p (bincodeSerialize m ++ tail)
      = .error .panicked := by
  unfold Receiver.recv_client_hello
  rw [readExact_append _ _ _ (length_bincodeSerialize _)]
  simp [bincode_roundtrip m hlen, hty]

/-- The sender's `recv_hello` returns `CryptoErr` when the AEAD open of the
received payload fails under its next nonce. -/
theorem recv_hello_crypto (key : List Nat) (p : Peer) (len : Nat)
    (tail : List Nat) (hlen : len < 18446744073709551616)
    (htl : len ≤ tail.length)
    (hopen : open_in_place key (Sender.get_next_nonce p.nonce p.counter).1
        (tail.take len) = none) :
    Sender.recv_hello key p (bincodeSerialize ⟨.Hello, len⟩ ++ tail)
      = .error (.err .CryptoErr) := by
  unfold Sender.recv_hello
  rw [readExact_append _ _ _ (length_bincodeSerialize _)]
  simp only [bincode_roundtrip ⟨MessageTy.Hello, len⟩ hlen]
  simp [readExact, htl, hopen]

/-- The receiver's `recv_client_hello` returns `CryptoErr` when the AEAD
open of the received payload fails under its next nonce. -/
theorem recv_client_hello_crypto (key : List Nat) (p : Peer) (len : Nat)
    (tail : List Nat) (hlen : len < 18446744073709551616)
    (htl : len ≤ tail.length)
    (hopen : open_in_place key (get_next_nonce p.nonce p.counter).1
        (tail.take len) = none) :
    Receiver.recv_client_hello key p (bincodeSerialize ⟨.Hello, len⟩ ++ tail)
      = .error (.err .CryptoErr) := by
  unfold Receiver.recv_client_hello
  rw [readExact_append _ _ _ (length_bincodeSerialize _)]
  simp only [bincode_roundtrip ⟨MessageTy.Hello, len⟩ hlen]
  simp [readExact, htl, hopen]

theorem wait_chunk_wrong_type (key : List Nat) (cap : Nat) (p : Peer)
    (m : Message) (tail : List Nat) (h1 : m.ty ≠ .Goodbye) (h2 : m.ty ≠ .Block)
    (hlen : m.len < 18446744073709551616) :
    Receiver.wait_chunk key cap p (bincodeSerialize m ++ tail)
      = .error .panicked := by
  unfold Receiver.wait_chunk
  rw [readExact_append _ _ _ (length_bincodeSerialize _)]
  simp [bincode_roundtrip m hlen, h1, h2]

theorem wait_chunk_oversize (key : List Nat) (cap : Nat) (p : Peer)
    (len : Nat) (tail : List Nat) (h : ¬ len ≤ cap)
    (hlen : len < 18446744073709551616) :
    Receiver.wait_chunk key cap p (bincodeSerialize ⟨.Block, len⟩ ++ tail)
      = .error .panicked := by
  unfold Receiver.wait_chunk
  rw [readExact_append _ _ _ (length_bincodeSerialize _)]
  simp [bincode_roundtrip ⟨MessageTy.Block, len⟩ hlen, h]

theorem wait_chunk_crypto (key : List Nat) (cap : Nat) (p : Peer)
    (len : Nat) (tail : List Nat) (hle : len ≤ cap)
    (hlen : len < 18446744073709551616)
    (hopen : open_in_place key (get_next_nonce p.nonce p.counter).1
        (tail.take len) = none) :
    Receiver.wait_chunk key cap p (bincodeSerialize ⟨.Block, len⟩ ++ tail)
      = .error (.err .CryptoErr) := by
  unfold Receiver.wait_chunk
  rw [readExact_append _ _ _ (length_bincodeSerialize _)]
  simp [bincode_roundtrip ⟨MessageTy.Block, len⟩ hlen, hle, hopen]

/-- The sender's `recv_rep_iv` performs NO type check: a header of any type
with `len = 4` followed by four IV bytes is accepted. -/
theorem recv_rep_iv_any_type (p : Peer) (ty : MessageTy) (iv : Nat)
    (tail : List Nat) :
    Sender.recv_rep_iv p (bincodeSerialize ⟨ty, 4⟩ ++ u32be iv ++ tail)
      = .ok ({ p with nonce := iv % 4294967296 }, tail) := by
  unfold Sender.recv_rep_iv
  rw [List.append_assoc, readExact_append _ _ _ (length_bincodeSerialize _)]
  simp only [bincode_roundtrip ⟨ty, 4⟩ (by norm_num)]
  rw [readExact_append _ _ _ (length_u32be iv)]
  simp [readU32be_u32be_nil]

theorem chunks_singleton (b : Nat) : chunks [b] = [[b]] := by
  have hone : (1:Nat) ≤ BLOCK_SIZE := by
    have : BLOCK_SIZE = 131072 := rfl
    omega
  rw [chunks, dif_neg (by simp)]
  rw [List.take_of_length_le (by simpa using hone),
    List.drop_eq_nil_of_le (by simpa using hone), chunks_nil]

theorem start_sender_wire_id (stdin : List Nat) :
    start_sender_wire stdin = stdin := by
  by_cases h : stdin = []
  · subst h
    rw [start_sender_wire]
    simp
  · have ih := start_sender_wire_id (stdin.drop BLOCK_SIZE)
    rw [start_sender_wire, dif_neg h, ih, List.take_append_drop]
termination_by stdin.length
decreasing_by
  cases stdin with
  | nil => exact absurd rfl h
  | cons a t => simp [BLOCK_SIZE]; omega

theorem start_receiver_out_id (wire : List Nat) :
    start_receiver_out wire = wire := by
  by_cases h : wire = []
  · subst h
    rw [start_receiver_out]
    simp
  · have ih := start_receiver_out_id (wire.drop BLOCK_SIZE)
    rw [start_receiver_out, dif_neg h, ih, List.take_append_drop]
termination_by wire.length
decreasing_by
  cases wire with
  | nil => exact absurd rfl h
  | cons a t => simp [BLOCK_SIZE]; omega

/-! ### Claim theorems -/

/-- Claim C1: for every session over a reliable byte stream with the same
key on both peers, running both state machines to completion delivers the
sender's input to the receiver's sink exactly: the sender accepts the
receiver's wire and emits the canonical session wire, and the receiver,
reading that wire, terminates successfully having written bytes identical
to the input (hence exactly `N = input.length` bytes, for any `N ≥ 0`). -/
theorem session_transfers_input_exactly (key : List Nat) (iv : Nat)
    (hiv : iv < 4294967296) (input : List Nat) :
    Sender.run key input (receiverWire key iv) = .ok (senderWire key iv input)
    ∧ Receiver.run key iv (senderWire key iv input)
        = .ok (input, receiverWire key iv) :=
  ⟨sender_run_wire key iv hiv input, receiver_run_out key iv input⟩

/-- Witness for C1 at a concrete session: key `[]`, IV `0`, two-byte
input. -/
theorem session_transfers_input_exactly_witness :
    (0:Nat) < 4294967296
    ∧ (Sender.run [] [7, 8] (receiverWire [] 0) = .ok (senderWire [] 0 [7, 8])
       ∧ Receiver.run [] 0 (senderWire [] 0 [7, 8])
           = .ok ([7, 8], receiverWire [] 0)) :=
  ⟨by norm_num, session_transfers_input_exactly [] 0 (by norm_num) [7, 8]⟩

/-- Claim C2: the nonce of the i-th AEAD operation (i ≥ 1, seals and opens
counted together) is `iv || i` (4-byte big-endian IV then 8-byte big-endian
counter): the sender's private `get_next_nonce` equals the shared one from
util.rs; iterating from counter 0 the i-th nonce is `iv || i`; and the
counter is NOT reset between handshake and transmit: after any successful
sender handshake the counter is 2 and the next nonce is `iv || 3`. -/
theorem nonce_is_iv_concat_counter :
    (∀ iv c, Sender.get_next_nonce iv c = get_next_nonce iv c)
    ∧ (∀ iv i, 1 ≤ i → i < 18446744073709551616 →
        nonceStream iv 0 (i - 1) = u32be iv ++ u64be i)
    ∧ (∀ key rx p' rx' tx,
        Sender.wait_hello key ⟨0, 0, .WaitHello⟩ rx = .ok (p', rx', tx) →
        p'.counter = 2
        ∧ nonceStream p'.nonce p'.counter 0 = u32be p'.nonce ++ u64be 3) := by
  refine ⟨fun iv c => rfl, fun iv i h1 hM => ?_, fun key rx p' rx' tx h => ?_⟩
  · have he := nonceStream_eq iv 0 (i - 1) (by omega)
    rw [he]
    congr 1
    congr 1
    omega
  · have hc := sender_wait_hello_ok key rx p' rx' tx h
    refine ⟨hc.2, ?_⟩
    rw [hc.2]
    have he := nonceStream_eq p'.nonce 2 0 (by norm_num)
    rw [he]

/-- Witness for C2: the first nonce from a fresh counter is `iv || 1`, and
a concrete successful handshake leaves counter 2 with next nonce `iv || 3`. -/
theorem nonce_is_iv_concat_counter_witness :
    nonceStream 7 0 0 = u32be 7 ++ u64be 1
    ∧ ((⟨2, 0, .Transmit⟩ : Peer).counter = 2
       ∧ nonceStream (⟨2, 0, .Transmit⟩ : Peer).nonce
           (⟨2, 0, .Transmit⟩ : Peer).counter 0
         = u32be (⟨2, 0, .Transmit⟩ : Peer).nonce ++ u64be 3) := by
  constructor
  · exact nonce_is_iv_concat_counter.2.1 7 1 (by norm_num) (by norm_num)
  · exact nonce_is_iv_concat_counter.2.2 [] (receiverHandshake [] 0 ++ [])
      ⟨2, 0, .Transmit⟩ [] (senderHandshake [] 0)
      (sender_wait_hello_frames [] 0 (by norm_num) [])

/-- Claim C3: after any successful handshake both peers are in `Transmit`
and each peer's counter is exactly 2 (sender: one seal then one open;
receiver: one open then one seal). -/
theorem handshake_counter_two :
    (∀ key rx p' rx' tx,
        Sender.wait_hello key ⟨0, 0, .WaitHello⟩ rx = .ok (p', rx', tx) →
        p'.state = .Transmit ∧ p'.counter = 2)
    ∧ (∀ key iv rx p' rx' tx,
        Receiver.wait_hello key iv ⟨0, 0, .WaitHello⟩ rx = .ok (p', rx', tx) →
        p'.state = .Transmit ∧ p'.counter = 2) :=
  ⟨fun key rx p' rx' tx h => sender_wait_hello_ok key rx p' rx' tx h,
   fun key iv rx p' rx' tx h => receiver_wait_hello_ok key iv rx p' rx' tx h⟩

/-- Witness for C3 on a concrete successful handshake (key `[]`, IV 5). -/
theorem handshake_counter_two_witness :
    ((⟨2, 5, .Transmit⟩ : Peer).state = .Transmit
     ∧ (⟨2, 5, .Transmit⟩ : Peer).counter = 2)
    ∧ ((⟨2, 5, .Transmit⟩ : Peer).state = .Transmit
       ∧ (⟨2, 5, .Transmit⟩ : Peer).counter = 2) := by
  constructor
  · exact handshake_counter_two.1 [] (receiverHandshake [] 5 ++ [])
      ⟨2, 5, .Transmit⟩ [] (senderHandshake [] 5)
      (sender_wait_hello_frames [] 5 (by norm_num) [])
  · exact handshake_counter_two.2 [] 5 (senderHandshake [] 5 ++ [])
      ⟨2, 5, .Transmit⟩ [] (receiverHandshake [] 5)
      (receiver_wait_hello_frames [] 5 [])

/-- Claim C4: the sender splits its input into non-empty chunks of at most
`BLOCK_SIZE` bytes, in input order (their concatenation is the input); each
chunk of length L is sent as exactly one `Block` frame of
`MESSAGE_SIZE + L + TAG_LEN` wire bytes whose header has
`len = L + TAG_LEN`; an input of `BLOCK_SIZE + 1` bytes yields exactly the
chunks of lengths `BLOCK_SIZE` and 1, and an empty input yields no block
frame at all. -/
theorem sender_block_discipline :
    (∀ input : List Nat, (chunks input).flatten = input)
    ∧ (∀ input : List Nat, ∀ ch ∈ chunks input, ch ≠ [] ∧ ch.length ≤ BLOCK_SIZE)
    ∧ (∀ key p input, (Sender.transmit key p input).2
        = framesFrom key p.nonce p.counter (chunks input))
    ∧ (∀ key iv n ch,
        (frameOfChunk key iv n ch).length = MESSAGE_SIZE + ch.length + TAG_LEN
        ∧ (frameOfChunk key iv n ch).take MESSAGE_SIZE
            = bincodeSerialize ⟨.Block, ch.length + TAG_LEN⟩)
    ∧ (∀ a, chunks (List.replicate (BLOCK_SIZE + 1) a)
        = [List.replicate BLOCK_SIZE a, [a]])
    ∧ chunks [] = []
    ∧ (∀ key p, (Sender.transmit key p ([] : List Nat)).2 = []) := by
  refine ⟨chunks_flatten, chunks_sizes, transmit_wire, fun key iv n ch => ⟨?_, ?_⟩,
    chunks_replicate_succ, chunks_nil, fun key p => ?_⟩
  · simp [frameOfChunk, MESSAGE_SIZE]
    omega
  · exact List.take_left' (length_bincodeSerialize _)
  · rw [transmit_wire, chunks_nil]
    rfl

/-- Witness for C4, applied at the one-chunk input `[5]`. -/
theorem sender_block_discipline_witness :
    (chunks [5]).flatten = [5]
    ∧ (([5] : List Nat) ≠ [] ∧ ([5] : List Nat).length ≤ BLOCK_SIZE) := by
  constructor
  · exact sender_block_discipline.1 [5]
  · exact sender_block_discipline.2.1 [5] [5] (by rw [chunks_singleton]; simp)

/-- Claim C5: header encoding is a bijection on legal messages: for every
message with a `u64`-representable `len`, decode after encode is the
identity and the encoding is exactly 12 bytes. -/
theorem header_codec_bijection (m : Message)
    (h : m.len < 18446744073709551616) :
    bincodeDeserialize (bincodeSerialize m) = some m
    ∧ (bincodeSerialize m).length = MESSAGE_SIZE :=
  ⟨bincode_roundtrip m h, length_bincodeSerialize m⟩

/-- Witness for C5 at the `Hello` header. -/
theorem header_codec_bijection_witness :
    (20:Nat) < 18446744073709551616
    ∧ (bincodeDeserialize (bincodeSerialize ⟨.Hello, 20⟩) = some ⟨.Hello, 20⟩
       ∧ (bincodeSerialize ⟨.Hello, 20⟩).length = MESSAGE_SIZE) :=
  ⟨by norm_num, header_codec_bijection ⟨.Hello, 20⟩ (by norm_num)⟩

/-- Counterexample to claim C6: the 12-byte header is NOT big-endian.  The
`ReqIV` header as actually produced (`bincode` legacy configuration,
little-endian) differs from the all-big-endian header the spec describes:
the variant index 1 lands in the first byte, not the fourth. -/
theorem header_not_big_endian :
    bincodeSerialize ⟨.ReqIV, 0⟩ ≠ specHeaderBE ⟨.ReqIV, 0⟩
    ∧ bincodeSerialize ⟨.ReqIV, 0⟩ = [1, 0, 0, 0, 0, 0, 0, 0, 0, 0, 0, 0]
    ∧ specHeaderBE ⟨.ReqIV, 0⟩ = [0, 0, 0, 1, 0, 0, 0, 0, 0, 0, 0, 0] := by
  refine ⟨by decide, rfl, rfl⟩

/-- Amended claim C6: the multi-byte integers in message PAYLOADS are
big-endian — the 4-byte IV after `RepIV`, the sealed magic bytes, and both
nonce components — but the 12-byte header itself (type discriminant and
`len`) is little-endian, produced by `bincode`'s legacy configuration. -/
theorem endianness_payload_be_header_le :
    (∀ m, bincodeSerialize m = u32le m.ty.discr ++ u64le m.len)
    ∧ (∀ iv p, (Receiver.send_rep_iv iv p).2
        = bincodeSerialize ⟨.RepIV, 4⟩ ++ u32be iv)
    ∧ (∀ nonce c, (get_next_nonce nonce c).1
        = u32be nonce ++ u64be ((c + 1) % 18446744073709551616))
    ∧ (∀ key p, (Sender.send_hello key p).2
        = bincodeSerialize ⟨.Hello, 20⟩
          ++ seal_in_place key
              (u32be p.nonce ++ u64be ((p.counter + 1) % 18446744073709551616))
              (u32be MAGIC_BYTES)) := by
  refine ⟨fun m => rfl, fun iv p => rfl, fun nonce c => rfl, fun key p => ?_⟩
  simp only [Sender.send_hello, Sender.get_next_nonce]
  rw [seal_magic_length]

/-- Counterexample to claim C7: the receiver does NOT abort with an
`UnexpectedMessage` or `Crypto` error value on a wrong-typed header — it
panics (`assert_eq!`), a distinct outcome. -/
theorem receiver_wrong_type_panics :
    Receiver.recv_req_iv (bincodeSerialize ⟨.Hello, 0⟩) = .error .panicked
    ∧ Abort.panicked ≠ .err .UnexpectedMessage
    ∧ Abort.panicked ≠ .err .CryptoErr := by
  refine ⟨?_, by decide, by decide⟩
  have h := recv_req_iv_wrong_type ⟨.Hello, 0⟩ [] (by decide) (by norm_num)
  rwa [List.append_nil] at h

/-- Amended claim C7: on a wrong-typed header the SENDER's `Hello` and
`Goodbye` receive paths return `UnexpectedMessage`; the RECEIVER instead
panics via `assert_eq!` on wrong types (both in the handshake and in
`Transmit`) and via `assert!` on an oversized `len`; an AEAD open failure
returns a `Crypto` error; and the sender's `RepIV` receive path performs no
type check at all.  In every case the session aborts with no retry. -/
theorem failure_semantics_amended :
    (∀ key p m tail, m.ty ≠ .Hello → m.len < 18446744073709551616 →
        Sender.recv_hello key p (bincodeSerialize m ++ tail)
          = .error (.err .UnexpectedMessage))
    ∧ (∀ m tail, m.ty ≠ .Goodbye → m.len < 18446744073709551616 →
        Sender.recv_server_goodbye (bincodeSerialize m ++ tail)
          = .error (.err .UnexpectedMessage))
    ∧ (∀ m tail, m.ty ≠ .ReqIV → m.len < 18446744073709551616 →
        Receiver.recv_req_iv (bincodeSerialize m ++ tail) = .error .panicked)
    ∧ (∀ key p m tail, m.ty ≠ .Hello → m.len < 18446744073709551616 →
        Receiver.recv_client_hello key p (bincodeSerialize m ++ tail)
          = .error .panicked)
    ∧ (∀ key cap p m tail, m.ty ≠ .Goodbye → m.ty ≠ .Block →
        m.len < 18446744073709551616 →
        Receiver.wait_chunk key cap p (bincodeSerialize m ++ tail)
          = .error .panicked)
    ∧ (∀ key cap p len tail, ¬ len ≤ cap → len < 18446744073709551616 →
        Receiver.wait_chunk key cap p (bincodeSerialize ⟨.Block, len⟩ ++ tail)
          = .error .panicked)
    ∧ (∀ key p len tail, len < 18446744073709551616 → len ≤ tail.length →
        open_in_place key (Sender.get_next_nonce p.nonce p.counter).1
            (tail.take len) = none →
        Sender.recv_hello key p (bincodeSerialize ⟨.Hello, len⟩ ++ tail)
          = .error (.err .CryptoErr))
    ∧ (∀ key p len tail, len < 18446744073709551616 → len ≤ tail.length →
        open_in_place key (get_next_nonce p.nonce p.counter).1
            (tail.take len) = none →
        Receiver.recv_client_hello key p (bincodeSerialize ⟨.Hello, len⟩ ++ tail)
          = .error (.err .CryptoErr))
    ∧ (∀ key cap p len tail, len ≤ cap → len < 18446744073709551616 →
        open_in_place key (get_next_nonce p.nonce p.counter).1 (tail.take len)
          = none →
        Receiver.wait_chunk key cap p (bincodeSerialize ⟨.Block, len⟩ ++ tail)
          = .error (.err .CryptoErr))
    ∧ (∀ p ty iv tail,
        Sender.recv_rep_iv p (bincodeSerialize ⟨ty, 4⟩ ++ u32be iv ++ tail)
          = .ok ({ p with nonce := iv % 4294967296 }, tail)) :=
  ⟨recv_hello_wrong_type, recv_server_goodbye_wrong_type,
   recv_req_iv_wrong_type, recv_client_hello_wrong_type,
   wait_chunk_wrong_type, wait_chunk_oversize,
   recv_hello_crypto, recv_client_hello_crypto,
   wait_chunk_crypto, recv_rep_iv_any_type⟩

/-- Witness for C7 (amended): a `RepIV` header where the sender expects
`Hello` yields `UnexpectedMessage`. -/
theorem failure_semantics_amended_witness :
    Sender.recv_hello [] ⟨0, 0, .Transmit⟩ (bincodeSerialize ⟨.RepIV, 0⟩ ++ [])
      = .error (.err .UnexpectedMessage) :=
  failure_semantics_amended.1 [] ⟨0, 0, .Transmit⟩ ⟨.RepIV, 0⟩ []
    (by decide) (by norm_num)

/-- Counterexample to claim C8: `Sender::send_hello` writes the header with
a single `stream.write` call whose short-write result is discarded, so with
a transport that accepts only 3 bytes of the first call the frame goes out
truncated (23 of 32 bytes) while the function still succeeds. -/
theorem single_write_truncates_hello :
    (sendHelloW [] 0 0 [3]).1.length = 23
    ∧ (bincodeSerialize ⟨.Hello, 20⟩
        ++ seal_in_place [] (u32be 0 ++ u64be 1) (u32be MAGIC_BYTES)).length = 32
    ∧ (sendHelloW [] 0 0 [3]).1
        ≠ bincodeSerialize ⟨.Hello, 20⟩
          ++ seal_in_place [] (u32be 0 ++ u64be 1) (u32be MAGIC_BYTES) := by
  refine ⟨rfl, rfl, by decide⟩

/-- Amended claim C8: only the block-ciphertext write in `Sender::transmit`
loops on partial writes — that loop does deliver every byte of the buffer,
whatever partial counts the transport reports — while every other wire
write (the `ReqIV`, `Block`, `RepIV`, `Hello` and `Goodbye` headers, the
4-byte IV payload, and the sealed hello payloads on both peers) is a
single `write` call whose short count is discarded: when the transport
accepts only `cap` bytes, `min cap MESSAGE_SIZE` bytes of the header (and,
for payload writes, `min cap` of the payload) go out and the function
still succeeds. -/
theorem write_loop_only_for_blocks :
    (∀ caps buf, (writeLoopW caps buf 0).1 = buf)
    ∧ (∀ key iv c chunk cap,
        (sendBlockW key iv c chunk [cap]).1
          = (bincodeSerialize ⟨.Block, chunk.length + TAG_LEN⟩).take cap
            ++ seal_in_place key
                (u32be iv ++ u64be ((c + 1) % 18446744073709551616)) chunk)
    ∧ (∀ key iv c cap,
        ((sendHelloW key iv c [cap]).1).length = min cap MESSAGE_SIZE + 20)
    ∧ (∀ key iv c cap,
        ((sendServerHelloW key iv c [cap]).1).length = min cap MESSAGE_SIZE + 20)
    ∧ (∀ key iv c cap,
        ((sendHelloW key iv c [MESSAGE_SIZE, cap]).1).length
          = MESSAGE_SIZE + min cap 20)
    ∧ (∀ iv cap,
        ((sendRepIvW iv [cap]).1).length = min cap MESSAGE_SIZE + 4)
    ∧ (∀ iv cap,
        ((sendRepIvW iv [MESSAGE_SIZE, cap]).1).length
          = MESSAGE_SIZE + min cap 4)
    ∧ (∀ cap, ((reqIvW [cap]).1).length = min cap MESSAGE_SIZE)
    ∧ (∀ cap, ((goodbyeW [cap]).1).length = min cap MESSAGE_SIZE) := by
  refine ⟨?_, ?_, ?_, ?_, ?_, ?_, ?_, ?_, ?_⟩
  · intro caps buf
    rw [writeLoopW_drop, List.drop_zero]
  · intro key iv c chunk cap
    simp only [sendBlockW, sendOnce, length_seal]
    rw [writeLoopW_drop, List.drop_zero]
  · intro key iv c cap
    simp [sendHelloW, sendOnce, List.length_take, seal_magic_length, MESSAGE_SIZE,
      TAG_LEN]
  · intro key iv c cap
    simp [sendServerHelloW, sendOnce, List.length_take, seal_magic_length,
      MESSAGE_SIZE, TAG_LEN]
  · intro key iv c cap
    simp [sendHelloW, sendOnce, List.length_take, seal_magic_length, MESSAGE_SIZE,
      TAG_LEN]
  · intro iv cap
    simp [sendRepIvW, sendOnce, List.length_take, MESSAGE_SIZE]
  · intro iv cap
    simp [sendRepIvW, sendOnce, List.length_take, MESSAGE_SIZE]
  · intro cap
    simp [reqIvW, sendOnce, List.length_take, MESSAGE_SIZE]
  · intro cap
    simp [goodbyeW, sendOnce, List.length_take, MESSAGE_SIZE]

/-- Counterexample to claim C9: the command-line surface has NO subcommands
at all — in particular no `genkey` — and no `--key` argument; the only
modes are the `--send`/`--recv` flags. -/
theorem cli_has_no_genkey :
    cliSubcommandNames = []
    ∧ "genkey" ∉ cliArgNames
    ∧ "key" ∉ cliArgNames
    ∧ mainDispatch (some "10.0.0.1:4433") none = .plainSend "10.0.0.1:4433" := by
  refine ⟨rfl, by decide, by decide, rfl⟩

/-- Amended claim C9: `main` offers two flag-selected modes and no
subcommands: `--send <addr>` copies standard input to the socket verbatim
(unencrypted, no protocol state machine), `--recv <addr>` copies the socket
to standard output verbatim, and with neither flag `main` does nothing and
returns `Ok` (exit 0). -/
theorem cli_two_flag_modes :
    (∀ a r, mainDispatch (some a) r = .plainSend a)
    ∧ (∀ a, mainDispatch none (some a) = .plainRecv a)
    ∧ mainDispatch none none = .nothing
    ∧ (∀ stdin, start_sender_wire stdin = stdin)
    ∧ (∀ w, start_receiver_out w = w)
    ∧ cliSubcommandNames = [] :=
  ⟨fun a r => rfl, fun a => rfl, rfl, start_sender_wire_id,
   start_receiver_out_id, rfl⟩

/-- Claim C10: in `Transmit` the receiver checks every `Block` header's
`len` against the reused buffer's capacity `BLOCK_SIZE + TAG_LEN` before
reading any payload byte: an oversized `len` panics whatever (even absent)
payload follows, and an accepted `len` bounds the bytes copied into the
buffer by its capacity. -/
theorem receiver_block_len_guard (key : List Nat) (p : Peer) (len : Nat)
    (junk : List Nat) (hrep : len < 18446744073709551616) :
    (¬ len ≤ BLOCK_SIZE + TAG_LEN →
        Receiver.wait_chunk key (BLOCK_SIZE + TAG_LEN) p
            (bincodeSerialize ⟨.Block, len⟩ ++ junk)
          = .error .panicked)
    ∧ (len ≤ BLOCK_SIZE + TAG_LEN →
        (junk.take len).length ≤ BLOCK_SIZE + TAG_LEN) := by
  constructor
  · intro h
    exact wait_chunk_oversize key (BLOCK_SIZE + TAG_LEN) p len junk h hrep
  · intro h
    rw [List.length_take]
    omega

/-- Witness for C10: a `Block` header announcing one byte more than the
buffer holds panics with NO payload bytes on the wire at all. -/
theorem receiver_block_len_guard_witness :
    Receiver.wait_chunk [] (BLOCK_SIZE + TAG_LEN) ⟨0, 0, .Transmit⟩
        (bincodeSerialize ⟨.Block, BLOCK_SIZE + TAG_LEN + 1⟩ ++ [])
      = .error .panicked :=
  (receiver_block_len_guard [] ⟨0, 0, .Transmit⟩ (BLOCK_SIZE + TAG_LEN + 1) []
    (by decide)).1 (by decide)

end UBuffer
